import Mathlib

/-! GoBackup: a shallow embedding of `main.go`

The Go program walks a source directory, copies every file it finds under a
destination directory and returns a `BackupReport`.  The functions of
`main.go` are embedded below under their own names.  Calls into the Go
standard library (`os`, `path/filepath`, `time`) are not part of the
repository: the functions of `main.go` take them through the record
`FileOps`, and a small concrete file system (`SimFS`) together with the
lexical `path/filepath` functions for Unix gives them a computable reading
where a claim needs one.  A last group of definitions replays a run the way
the specification describes it, for comparison with the report.
-/

namespace GoBackup

/-! ## Errors -/

/-- Error numbers of the system calls the program can meet. -/
inductive Errno where
  | ENOENT
  | EACCES
  | ENOTDIR
  | EISDIR
  | EEXIST
  | ENOSPC
  | ENODEVADDR
  | ENOMEM
  deriving DecidableEq, Repr

/-- Text of an error number, as `syscall.Errno.Error` prints it. -/
def Errno.Error : Errno → String
  | .ENOENT => "no such file or directory"
  | .EACCES => "permission denied"
  | .ENOTDIR => "not a directory"
  | .EISDIR => "is a directory"
  | .EEXIST => "file exists"
  | .ENOSPC => "no space left on device"
  | .ENODEVADDR => "no such device or address"
  | .ENOMEM => "cannot allocate memory"

/-- Go `error` values the program handles: the `*fs.PathError` that every
function of package `os` returns, and the `errors.New` value of
`filepath.Rel`. -/
inductive GoError where
  | pathError (Op : String) (Path : String) (Err : Errno)
  | relError (targpath : String) (basepath : String)
  deriving DecidableEq, Repr

/-- Method `Error()` of the two error types. -/
def GoError.Error : GoError → String
  | .pathError op path err => op ++ " " ++ path ++ ": " ++ err.Error
  | .relError targ base => "Rel: can't make " ++ targ ++ " relative to " ++ base

/-- Function `os.IsNotExist`. -/
def IsNotExist : GoError → Bool
  | .pathError _ _ .ENOENT => true
  | _ => false

/-! ## File metadata -/

/-- Type bits of a `fs.FileMode`. -/
inductive FileKind where
  | regular
  | dir
  | symlink
  | namedPipe
  | socket
  | device
  deriving DecidableEq, Repr

/-- A `fs.FileMode`: the type bits and the permission bits (with setuid,
setgid and sticky), the latter as a number below `0o10000`. -/
structure FileMode where
  kind : FileKind
  perm : Nat
  deriving DecidableEq, Repr

/-- A `fs.FileInfo`, reduced to the methods the program calls. -/
structure FileInfo where
  Size : Int
  Mode : FileMode
  deriving DecidableEq, Repr

/-- Method `FileInfo.IsDir`. -/
def FileInfo.IsDir (info : FileInfo) : Bool :=
  decide (info.Mode.kind = FileKind.dir)

/-- Method `FileMode.IsRegular`: no type bit is set. -/
def FileMode.IsRegular (m : FileMode) : Bool :=
  decide (m.kind = FileKind.regular)

/-! ## Wall clock and `Time.Format` -/

/-- A reading of the wall clock (`time.Now()`), broken down into the fields
that the layouts of the program print.  The year is in the four-digit
range of the layout element `2006`. -/
structure Time where
  year : Nat
  month : Nat
  day : Nat
  hour : Nat
  minute : Nat
  second : Nat
  year_le : year ≤ 9999
  month_le : month ≤ 12
  day_le : day ≤ 31
  hour_lt : hour < 24
  minute_lt : minute < 60
  second_lt : second < 60

/-- Decimal digit as a character. -/
def digitChar (d : Nat) : Char :=
  Char.ofNat (48 + d % 10)

/-- Decimal digits of `x`, most significant first; `fuel` bounds the number
of digits. -/
def decimalDigits : Nat → Nat → List Char
  | 0, _ => []
  | fuel + 1, x =>
    if x < 10 then [digitChar x] else decimalDigits fuel (x / 10) ++ [digitChar x]

/-- Function `appendInt` of package `time` for a non-negative `x`: the
decimal digits of `x`, padded with zeros on the left up to `width`. -/
def appendInt (x width : Nat) : List Char :=
  let ds := decimalDigits (x + 1) x
  List.replicate (width - ds.length) '0' ++ ds

/-- Layout `2006-01-02 15:04:05` applied to a clock reading. -/
def formatReportStamp (t : Time) : String :=
  String.mk (appendInt t.year 4 ++ '-' :: appendInt t.month 2 ++ '-' :: appendInt t.day 2
    ++ ' ' :: appendInt t.hour 2 ++ ':' :: appendInt t.minute 2 ++ ':' :: appendInt t.second 2)

/-- Elements of a path between separators (`strings.Split(path, "/")`). -/
def splitSep : List Char → List (List Char)
  | [] => [[]]
  | c :: cs =>
    if c = '/' then [] :: splitSep cs
    else
      match splitSep cs with
      | h :: t => (c :: h) :: t
      | [] => [[c]]

/-- Elements joined with the separator (`strings.Join(elems, "/")`). -/
def joinSep : List (List Char) → List Char
  | [] => []
  | [e] => e
  | e :: es => e ++ '/' :: joinSep es

/-- Element loop of `filepath.Clean`: `out` holds the elements kept so far,
last one first.  Empty elements and `.` are dropped; `..` removes the last
kept element when there is one that is not itself `..`, is kept in a
relative path and is dropped at the root. -/
def cleanElems (rooted : Bool) : List (List Char) → List (List Char) → List (List Char)
  | [], out => out.reverse
  | e :: es, out =>
    if e = [] ∨ e = ['.'] then cleanElems rooted es out
    else if e = ['.', '.'] then
      match out with
      | last :: out1 =>
        if last = ['.', '.'] then cleanElems rooted es (e :: out)
        else cleanElems rooted es out1
      | [] => if rooted then cleanElems rooted es out else cleanElems rooted es [e]
    else cleanElems rooted es (e :: out)

/-- Function `filepath.Clean` on characters. -/
def cleanChars (path : List Char) : List Char :=
  match path with
  | [] => ['.']
  | c :: _ =>
    let rooted := decide (c = '/')
    let out := cleanElems rooted (splitSep path) []
    if rooted then '/' :: joinSep out
    else if out = [] then ['.'] else joinSep out

/-- Function `filepath.Clean`. -/
def Clean (path : String) : String :=
  String.mk (cleanChars path.data)

/-- Function `filepath.Join` for the two elements the program passes: the
elements from the first non-empty one on are joined with `/` and cleaned. -/
def Join (a b : String) : String :=
  if a ≠ "" then String.mk (cleanChars (a.data ++ '/' :: b.data))
  else if b ≠ "" then String.mk (cleanChars b.data)
  else ""

/-- Prefix of the path up to and including its last separator, given the
reversed path. -/
def dirPrefixRev : List Char → List Char
  | [] => []
  | c :: cs => if c = '/' then c :: cs else dirPrefixRev cs

/-- Function `filepath.Dir`: everything up to the last separator, cleaned. -/
def Dir (path : String) : String :=
  String.mk (cleanChars (dirPrefixRev path.data.reverse).reverse)

/-- Elements of a cleaned path for `filepath.Rel`: the text between the
separators without the empty elements; the path `.` has none. -/
def relElems (cleaned : List Char) : List (List Char) :=
  if cleaned = ['.'] then []
  else (splitSep cleaned).filter (fun e => decide (e ≠ []))

/-- The elements of base and target that follow their common beginning. -/
def dropCommon : List (List Char) → List (List Char) → List (List Char) × List (List Char)
  | [], ts => ([], ts)
  | b :: bs, [] => (b :: bs, [])
  | b :: bs, t :: ts => if b = t then dropCommon bs ts else (b :: bs, t :: ts)

/-- Function `filepath.Rel`, on the elements of the two cleaned paths.  Equal
paths give `.`.  A rooted and an unrooted path cannot be related.  The
common leading elements are dropped; a base that then begins with `..`
cannot be left lexically, which is the second error; otherwise the result
climbs one `..` for each element left of the base and follows the elements
left of the target. -/
def Rel (basepath targpath : String) : Except GoError String :=
  let base := cleanChars basepath.data
  let targ := cleanChars targpath.data
  if targ = base then .ok "."
  else
    let baseSlashed := decide (base.head? = some '/')
    let targSlashed := decide (targ.head? = some '/')
    if baseSlashed ≠ targSlashed then .error (.relError targpath basepath)
    else
      match dropCommon (relElems base) (relElems targ) with
      | (rb, rt) =>
        if rb.head? = some ['.', '.'] then .error (.relError targpath basepath)
        else .ok (String.mk (joinSep (rb.map (fun _ => ['.', '.']) ++ rt)))

/-! ## The operating system as seen by the program

Every call of package `os` takes the state of the world and returns its
result with the state after the call: a call may fail for any reason and
the world may change at any call. -/

/-- Contents of a file (`[]byte`). -/
abbrev Bytes := List UInt8

/-- What `os.Lstat` and the directory listing of `filepath.Walk` find under
a path: either `Lstat` fails, or it gives the `FileInfo` of the entry, and
for a directory the outcome of reading its names (an error, or the names
in lexical order, each with what is found under it). -/
inductive WalkTree where
  | lstatErr (err : GoError)
  | entry (info : FileInfo) (readErr : Option GoError) (names : List (String × WalkTree))

/-- Calls of packages `os` and `path/filepath` made by `main.go`, over a
state of the world `σ`. -/
structure FileOps (σ : Type) where
  /-- Call `os.Stat(name)`. -/
  Stat : σ → String → Except GoError FileInfo × σ
  /-- Call `os.ReadFile(name)`. -/
  ReadFile : σ → String → Except GoError Bytes × σ
  /-- Call `os.WriteFile(name, data, perm)`. -/
  WriteFile : σ → String → Bytes → Nat → Option GoError × σ
  /-- Call `os.Chmod(name, mode)`. -/
  Chmod : σ → String → FileMode → Option GoError × σ
  /-- Call `os.MkdirAll(path, perm)`. -/
  MkdirAll : σ → String → Nat → Option GoError × σ
  /-- What `filepath.Walk(root, ...)` meets below `root`. -/
  Lstat : σ → String → WalkTree × σ
  /-- Call `filepath.Rel(basepath, targpath)`. -/
  Rel : String → String → Except GoError String
  /-- Call `filepath.Join(a, b)`. -/
  Join : String → String → String
  /-- Call `filepath.Dir(path)`. -/
  Dir : String → String

/-! ## `filepath.Walk` -/

/-- Value returned by a `filepath.WalkFunc`: `nil`, one of the two
sentinels, or another error. -/
inductive WalkRet where
  | nil
  | SkipDir
  | SkipAll
  | err (e : GoError)
  deriving DecidableEq

/-- A `filepath.WalkFunc` that also updates the variables it captures
(of type `α`). -/
abbrev WalkFunc (α : Type) := String → Option FileInfo → Option GoError → α → α × WalkRet

/-- Function `walk` of `path/filepath`, applied to what `Lstat` found at
`path` (the caller's call of the function on an `Lstat` error is the first
case).  A non-directory is passed to the function.  A directory is passed
with the error of reading its names, if any; when there is none and the
function returned `nil`, its names are walked in order. -/
def walk {α : Type} (join : String → String → String) (fn : WalkFunc α) :
    String → WalkTree → α → α × WalkRet
  | path, .lstatErr e, acc => fn path none (some e) acc
  | path, .entry info readErr names, acc =>
    if !info.IsDir then fn path (some info) none acc
    else
      match fn path (some info) readErr acc with
      | (acc1, err1) =>
        if readErr.isSome ∨ err1 ≠ WalkRet.nil then (acc1, err1)
        else walkNames join fn path names acc1
where
  /-- Loop `for _, name := range names` of `walk`. -/
  walkNames {α : Type} (join : String → String → String) (fn : WalkFunc α) :
      String → List (String × WalkTree) → α → α × WalkRet
    | _, [], acc => (acc, WalkRet.nil)
    | path, (name, .lstatErr e) :: rest, acc =>
      match fn (join path name) none (some e) acc with
      | (acc1, r) =>
        if r ≠ WalkRet.nil ∧ r ≠ WalkRet.SkipDir then (acc1, r)
        else walkNames join fn path rest acc1
    | path, (name, .entry info readErr names) :: rest, acc =>
      match walk join fn (join path name) (.entry info readErr names) acc with
      | (acc1, r) =>
        if r ≠ WalkRet.nil ∧ (!info.IsDir ∨ r ≠ WalkRet.SkipDir) then (acc1, r)
        else walkNames join fn path rest acc1

/-- Function `filepath.Walk`: the sentinels become `nil`. -/
def Walk {α : Type} (join : String → String → String) (fn : WalkFunc α)
    (root : String) (t : WalkTree) (acc : α) : α × Option GoError :=
  match walk join fn root t acc with
  | (acc1, .err e) => (acc1, some e)
  | (acc1, _) => (acc1, none)

/-! ## Functions of `main.go` -/

/-- Type `BackupConfig` (main.go, lines 10-14). -/
structure BackupConfig where
  SourcePath : String
  DestinationPath : String
  BackupType : String
  deriving DecidableEq, Repr

/-- Value an `int64` holds after an addition with the mathematical result
`x`: `x` reduced modulo `2^64` into the range from `-2^63` to `2^63 - 1`. -/
def wrapInt64 (x : Int) : Int :=
  (x + 9223372036854775808) % 18446744073709551616 - 9223372036854775808

/-- Type `BackupReport` (main.go, lines 16-23).  `FilesBackedUp` (an `int`)
counts elements of a slice, which cannot reach `2^63`; `TotalSize` is an
`int64` whose additions wrap around (`wrapInt64`). -/
structure BackupReport where
  Timestamp : String
  FilesBackedUp : Int
  TotalSize : Int
  Duration : String
  Success : Bool
  ErrorMessage : String
  deriving DecidableEq, Repr

/-- Function `getFileSize` (main.go, lines 29-35). -/
def getFileSize {σ : Type} (os : FileOps σ) (s : σ) (filePath : String) :
    Except GoError Int × σ :=
  match os.Stat s filePath with
  | (.error err, s1) => (.error err, s1)
  | (.ok fileInfo, s1) => (.ok fileInfo.Size, s1)

/-- The function literal passed to `filepath.Walk` in `getDirectoryFiles`
(main.go, lines 39-48); the captured variable is `files`.  `filepath.Walk`
passes a `FileInfo` whenever it passes no error. -/
def collectFile : WalkFunc (List String)
  | _, _, some _, files => (files, WalkRet.nil)
  | path, some info, none, files =>
    if !info.IsDir then (files ++ [path], WalkRet.nil) else (files, WalkRet.nil)
  | _, none, none, files => (files, WalkRet.nil)

/-- Function `getDirectoryFiles` (main.go, lines 37-50). -/
def getDirectoryFiles {σ : Type} (os : FileOps σ) (s : σ) (dirPath : String) :
    (List String × Option GoError) × σ :=
  match os.Lstat s dirPath with
  | (t, s1) => (Walk os.Join collectFile dirPath t [], s1)

/-- Function `copyFile` (main.go, lines 52-74). -/
def copyFile {σ : Type} (os : FileOps σ) (s : σ) (src dst : String) : Option GoError × σ :=
  match os.ReadFile s src with
  | (.error err, s1) => (some err, s1)
  | (.ok data, s1) =>
    match os.WriteFile s1 dst data 0o644 with
    | (some err, s2) => (some err, s2)
    | (none, s2) =>
      match os.Stat s2 src with
      | (.error err, s3) => (some err, s3)
      | (.ok info, s3) =>
        let srcRights := info.Mode
        match os.Chmod s3 dst srcRights with
        | (some err, s4) => (some err, s4)
        | (none, s4) => (none, s4)

/-- Function `createBackupDirectory` (main.go, lines 76-86). -/
def createBackupDirectory {σ : Type} (os : FileOps σ) (s : σ) (backupPath : String) :
    Option GoError × σ :=
  match os.Stat s backupPath with
  | (.error err, s1) =>
    if IsNotExist err then
      match os.MkdirAll s1 backupPath 0o755 with
      | (some err, s2) => (some err, s2)
      | (none, s2) => (none, s2)
    else (some err, s1)
  | (.ok _, s1) => (none, s1)

/-- A step of `performFullBackup` with the value it returned.  The list of
these steps is a record of the run kept beside the program's own state; the
program does not read it. -/
inductive Event where
  | createDir (path : String) (err : Option GoError)
  | listFiles (dir : String) (files : List String) (err : Option GoError)
  | mapPath (base : String) (file : String) (res : Except GoError String)
  | copy (src : String) (dst : String) (err : Option GoError)
  | size (file : String) (res : Except GoError Int)

/-- Error returned by a step, if any. -/
def Event.err : Event → Option GoError
  | .createDir _ e => e
  | .listFiles _ _ e => e
  | .mapPath _ _ (.error e) => some e
  | .mapPath _ _ (.ok _) => none
  | .copy _ _ e => e
  | .size _ (.error e) => some e
  | .size _ (.ok _) => none

/-- State of a run of `performFullBackup`: the variable `report`, the state
of the world, and the steps made so far. -/
structure RunState (σ : Type) where
  report : BackupReport
  world : σ
  trace : List Event

/-- The three statements of every `if err != nil` block of
`performFullBackup`: record the message and clear `Success`. -/
def BackupReport.fail (r : BackupReport) (err : GoError) : BackupReport :=
  { r with ErrorMessage := err.Error, Success := false }

/-- Body of the loop `for _, file := range files` of `performFullBackup`
(main.go, lines 122-155).  The second component tells whether the body
left the loop through `break`. -/
def backupFile {σ : Type} (os : FileOps σ) (config : BackupConfig) (st : RunState σ)
    (file : String) : RunState σ × Bool :=
  let relRes := os.Rel config.SourcePath file
  let tr1 := st.trace ++ [Event.mapPath config.SourcePath file relRes]
  match relRes with
  | .error err => (⟨st.report.fail err, st.world, tr1⟩, true)
  | .ok relativePath =>
    let destPath := os.Join config.DestinationPath relativePath
    let destDir := os.Dir destPath
    match createBackupDirectory os st.world destDir with
    | (some err, w1) =>
      (⟨st.report.fail err, w1, tr1 ++ [Event.createDir destDir (some err)]⟩, true)
    | (none, w1) =>
      let tr2 := tr1 ++ [Event.createDir destDir none]
      match copyFile os w1 file destPath with
      | (some err, w2) =>
        (⟨st.report.fail err, w2, tr2 ++ [Event.copy file destPath (some err)]⟩, true)
      | (none, w2) =>
        let tr3 := tr2 ++ [Event.copy file destPath none]
        let report1 := { st.report with FilesBackedUp := st.report.FilesBackedUp + 1 }
        match getFileSize os w2 file with
        | (.error err, w3) =>
          (⟨report1.fail err, w3, tr3 ++ [Event.size file (.error err)]⟩, true)
        | (.ok fileSize, w3) =>
          (⟨{ report1 with TotalSize := wrapInt64 (report1.TotalSize + fileSize) }, w3,
            tr3 ++ [Event.size file (.ok fileSize)]⟩, false)

/-- The loop `for _, file := range files` of `performFullBackup`. -/
def copyLoop {σ : Type} (os : FileOps σ) (config : BackupConfig) :
    List String → RunState σ → RunState σ
  | [], st => st
  | file :: rest, st =>
    match backupFile os config st file with
    | (st1, true) => st1
    | (st1, false) => copyLoop os config rest st1

/-- The zero value of `BackupReport` (`var report BackupReport`). -/
def BackupReport.zero : BackupReport :=
  { Timestamp := "", FilesBackedUp := 0, TotalSize := 0, Duration := "", Success := false,
    ErrorMessage := "" }

/-- State of `performFullBackup` after the call of `createBackupDirectory`
on the destination (main.go, lines 99-111). -/
def prepareDestination {σ : Type} (os : FileOps σ) (config : BackupConfig) (s : σ) :
    RunState σ :=
  let report := { BackupReport.zero with Success := true }
  match createBackupDirectory os s config.DestinationPath with
  | (some err, s1) =>
    ⟨report.fail err, s1, [Event.createDir config.DestinationPath (some err)]⟩
  | (none, s1) => ⟨report, s1, [Event.createDir config.DestinationPath none]⟩

/-- State of `performFullBackup` after the call of `getDirectoryFiles`
(main.go, lines 113-119), with the files it returned. -/
def listSource {σ : Type} (os : FileOps σ) (config : BackupConfig) (st : RunState σ) :
    List String × RunState σ :=
  match getDirectoryFiles os st.world config.SourcePath with
  | ((files, some err), s1) =>
    (files, ⟨st.report.fail err, s1,
      st.trace ++ [Event.listFiles config.SourcePath files (some err)]⟩)
  | ((files, none), s1) =>
    (files, ⟨st.report, s1, st.trace ++ [Event.listFiles config.SourcePath files none]⟩)

/-- Method `performFullBackup` (main.go, lines 98-161).  `duration` is the
text `fmt.Sprintf("%.2f seconds", ...)` gives for the elapsed time and
`finish` the reading of the clock at the end of the run. -/
def performFullBackup {σ : Type} (os : FileOps σ) (config : BackupConfig) (s : σ)
    (duration : String) (finish : Time) : RunState σ :=
  match listSource os config (prepareDestination os config s) with
  | (files, st) =>
    match copyLoop os config files st with
    | st1 =>
      { st1 with report := { st1.report with Duration := duration,
                                             Timestamp := formatReportStamp finish } }

/-! ## A concrete file system

A table from cleaned paths to files and directories, for one unprivileged
user who owns every entry: reading a file needs its owner-read bit, writing
an existing file its owner-write bit, creating an entry the owner-write bit
of the parent directory, passing through a directory its owner-search bit.
An entry may belong to a group the user is not a member of (`foreign`).  As
the kernel does for an unprivileged caller, a write clears the setuid bit
of the file and, where the group is foreign or may execute the file, its
setgid bit, and `chmod` on an entry of a foreign group does not set the
setgid bit.  Besides files and directories there are sockets, which cannot
be opened.  There are no links.  The directories `/` and `.` exist in every
table. -/

/-- An entry of the file system. -/
inductive Node where
  | file (data : Bytes) (perm : Nat)
  | dir (perm : Nat)
  | socket (perm : Nat)
  deriving DecidableEq

/-- The table; the first binding of a path is the current one. -/
abbrev SimFS := List (String × Node)

/-- Binding of a cleaned path in a list of bindings. -/
def findNode : SimFS → String → Option Node
  | [], _ => none
  | (k, n) :: rest, p => if k = p then some n else findNode rest p

/-- Entry at a cleaned path. -/
def SimFS.get (fs : SimFS) (p : String) : Option Node :=
  match findNode fs p with
  | some n => some n
  | none => if p = "/" ∨ p = "." then some (Node.dir 0o755) else none

/-- The table with a new binding for `p`. -/
def SimFS.set (fs : SimFS) (p : String) (n : Node) : SimFS :=
  (p, n) :: fs

/-- Proper ancestors of a cleaned path, nearest first. -/
def ancestorsFrom : Nat → String → List String
  | 0, _ => []
  | fuel + 1, p => if Dir p = p then [] else Dir p :: ancestorsFrom fuel (Dir p)

/-- Proper ancestors of a cleaned path, from the top down. -/
def ancestors (p : String) : List String :=
  (ancestorsFrom p.length p).reverse

/-- Whether a permission has the bit `bit` (a power of two). -/
def hasBit (perm bit : Nat) : Bool :=
  decide (perm / bit % 2 = 1)

/-- The permission without the bit `bit` (a power of two). -/
def clearBit (perm bit : Nat) : Nat :=
  if hasBit perm bit then perm - bit else perm

/-- Mode of a file after a write by the unprivileged user: the setuid bit
is cleared, and the setgid bit too when the group is foreign or has the
execute bit. -/
def dropPrivileges (foreignGroup : Bool) (perm : Nat) : Nat :=
  if foreignGroup ∨ hasBit perm 0o010 then clearBit (clearBit perm 0o4000) 0o2000
  else clearBit perm 0o4000

/-- Bits `chmod` stores for the unprivileged user: the setgid bit is left
out for an entry of a foreign group. -/
def chmodBits (foreignGroup : Bool) (perm : Nat) : Nat :=
  if foreignGroup then clearBit perm 0o2000 else perm

/-- Path resolution through the ancestors: each must be a directory that
the user may search. -/
def checkDirs (fs : SimFS) : List String → Option Errno
  | [] => none
  | d :: ds =>
    match fs.get d with
    | none => some Errno.ENOENT
    | some (Node.file _ _) => some Errno.ENOTDIR
    | some (Node.socket _) => some Errno.ENOTDIR
    | some (Node.dir perm) => if hasBit perm 0o100 then checkDirs fs ds else some Errno.EACCES

/-- Entry a path name resolves to. -/
def SimFS.resolve (fs : SimFS) (name : String) : Except Errno Node :=
  match checkDirs fs (ancestors (Clean name)) with
  | some e => .error e
  | none =>
    match fs.get (Clean name) with
    | none => .error Errno.ENOENT
    | some n => .ok n

/-- The `FileInfo` of an entry. -/
def Node.info : Node → FileInfo
  | .file data perm => ⟨data.length, ⟨FileKind.regular, perm⟩⟩
  | .dir perm => ⟨4096, ⟨FileKind.dir, perm⟩⟩
  | .socket perm => ⟨0, ⟨FileKind.socket, perm⟩⟩

/-- Call `os.Stat` on the table. -/
def SimFS.Stat (fs : SimFS) (name : String) : Except GoError FileInfo × SimFS :=
  match fs.resolve name with
  | .error e => (.error (.pathError "stat" name e), fs)
  | .ok n => (.ok n.info, fs)

/-- Call `os.ReadFile` on the table. -/
def SimFS.ReadFile (fs : SimFS) (name : String) : Except GoError Bytes × SimFS :=
  match fs.resolve name with
  | .error e => (.error (.pathError "open" name e), fs)
  | .ok (.dir _) => (.error (.pathError "read" name Errno.EISDIR), fs)
  | .ok (.socket _) => (.error (.pathError "open" name Errno.ENODEVADDR), fs)
  | .ok (.file data perm) =>
    if hasBit perm 0o400 then (.ok data, fs)
    else (.error (.pathError "open" name Errno.EACCES), fs)

/-- Whether an entry may be created under the parent of a cleaned path. -/
def SimFS.parentWritable (fs : SimFS) (p : String) : Bool :=
  match fs.get (Dir p) with
  | some (.dir perm) => hasBit perm 0o200
  | _ => false

/-- Call `os.WriteFile` on the table: an existing file gets the new content
and loses its setuid and setgid bits as `dropPrivileges` tells, a missing
one is created with `perm`. -/
def SimFS.WriteFile (foreign : String → Bool) (fs : SimFS) (name : String) (data : Bytes)
    (perm : Nat) : Option GoError × SimFS :=
  match checkDirs fs (ancestors (Clean name)) with
  | some e => (some (.pathError "open" name e), fs)
  | none =>
    match fs.get (Clean name) with
    | some (.dir _) => (some (.pathError "open" name Errno.EISDIR), fs)
    | some (.socket _) => (some (.pathError "open" name Errno.ENODEVADDR), fs)
    | some (.file _ old) =>
      if hasBit old 0o200 then
        (none, fs.set (Clean name) (.file data (dropPrivileges (foreign (Clean name)) old)))
      else (some (.pathError "open" name Errno.EACCES), fs)
    | none =>
      if fs.parentWritable (Clean name) then (none, fs.set (Clean name) (.file data perm))
      else (some (.pathError "open" name Errno.EACCES), fs)

/-- Call `os.Chmod` on the table: the permission bits of the mode replace
those of the entry, without the setgid bit when the group of the entry is
foreign (`chmodBits`). -/
def SimFS.Chmod (foreign : String → Bool) (fs : SimFS) (name : String) (mode : FileMode) :
    Option GoError × SimFS :=
  match fs.resolve name with
  | .error e => (some (.pathError "chmod" name e), fs)
  | .ok (.file data _) =>
    (none, fs.set (Clean name) (.file data (chmodBits (foreign (Clean name)) mode.perm)))
  | .ok (.dir _) =>
    (none, fs.set (Clean name) (.dir (chmodBits (foreign (Clean name)) mode.perm)))
  | .ok (.socket _) =>
    (none, fs.set (Clean name) (.socket (chmodBits (foreign (Clean name)) mode.perm)))

/-- Loop of `os.MkdirAll` over the ancestors and the path itself, from the
top down: a directory is kept, a file or socket stops the call, a missing entry is
created when its parent may be written. -/
def mkdirChain (name : String) (perm : Nat) : List String → SimFS → Option GoError × SimFS
  | [], fs => (none, fs)
  | d :: ds, fs =>
    match fs.get d with
    | some (.dir _) => mkdirChain name perm ds fs
    | some (.file _ _) => (some (.pathError "mkdir" name Errno.ENOTDIR), fs)
    | some (.socket _) => (some (.pathError "mkdir" name Errno.ENOTDIR), fs)
    | none =>
      if fs.parentWritable d then mkdirChain name perm ds (fs.set d (.dir perm))
      else (some (.pathError "mkdir" name Errno.EACCES), fs)

/-- Call `os.MkdirAll` on the table. -/
def SimFS.MkdirAll (fs : SimFS) (name : String) (perm : Nat) : Option GoError × SimFS :=
  mkdirChain name perm (ancestors (Clean name) ++ [Clean name]) fs

/-- Byte order on names (`sort.Strings`). -/
def charsLt : List Char → List Char → Bool
  | _, [] => false
  | [], _ :: _ => true
  | a :: as, b :: bs =>
    if a.toNat < b.toNat then true
    else if b.toNat < a.toNat then false
    else charsLt as bs

/-- A name put at its place in a sorted list of names, once. -/
def insertName (n : String) : List String → List String
  | [] => [n]
  | m :: ms =>
    if n = m then m :: ms
    else if charsLt n.data m.data then n :: m :: ms
    else m :: insertName n ms

/-- Last element of a cleaned path (`filepath.Base`). -/
def baseName (p : String) : String :=
  String.mk ((splitSep p.data).getLastD [])

/-- Names of the entries of the directory at the cleaned path `d`, sorted. -/
def childNames (fs : SimFS) (d : String) : List String :=
  (fs.filter (fun kn => decide (kn.1 ≠ d ∧ Dir kn.1 = d))).foldr
    (fun kn acc => insertName (baseName kn.1) acc) []

/-- What `filepath.Walk` meets at `path`; `fuel` bounds the depth. -/
def SimFS.tree (fs : SimFS) : Nat → String → WalkTree
  | 0, path => .lstatErr (.pathError "lstat" path Errno.ENOENT)
  | fuel + 1, path =>
    match fs.resolve path with
    | .error e => .lstatErr (.pathError "lstat" path e)
    | .ok (.file data perm) => .entry (Node.file data perm).info none []
    | .ok (.socket perm) => .entry (Node.socket perm).info none []
    | .ok (.dir perm) =>
      if hasBit perm 0o400 then
        .entry (Node.dir perm).info none
          ((childNames fs (Clean path)).map (fun n => (n, SimFS.tree fs fuel (Join path n))))
      else .entry (Node.dir perm).info (some (.pathError "open" path Errno.EACCES)) []

/-- The calls of `main.go` on the concrete file system, with the functions
of `path/filepath` above; `foreign` tells for a cleaned path that the entry
there belongs to a group the user is not a member of. -/
def simOpsIn (foreign : String → Bool) : FileOps SimFS where
  Stat := SimFS.Stat
  ReadFile := SimFS.ReadFile
  WriteFile := SimFS.WriteFile foreign
  Chmod := SimFS.Chmod foreign
  MkdirAll := SimFS.MkdirAll
  Lstat := fun fs root => (fs.tree (fs.length + 1) root, fs)
  Rel := Rel
  Join := Join
  Dir := Dir

/-- The calls on the concrete file system for a user who is a member of the
group of every entry. -/
def simOps : FileOps SimFS :=
  simOpsIn (fun _ => false)

/-- Size noted for a cleaned path in a list of extended files. -/
def findSize : List (String × Int) → String → Option Int
  | [], _ => none
  | (k, n) :: rest, p => if k = p then some n else findSize rest p

/-- The calls on the concrete file system beside a second process that
extends the file `victim` to `size` bytes, leaving a hole, as soon as a
`chmod` of the program on `trigger` has returned.  The state holds, beside
the table, the files extended so far with their sizes: `os.Stat` reports
that size, a read of such a file fails for lack of memory, and a write
truncates it to what is written. -/
def growingOps (trigger victim : String) (size : Int) : FileOps (SimFS × List (String × Int)) where
  Stat := fun st name =>
    match SimFS.Stat st.1 name with
    | (.ok info, fs1) =>
      match findSize st.2 (Clean name) with
      | some n => (.ok { info with Size := n }, (fs1, st.2))
      | none => (.ok info, (fs1, st.2))
    | (.error e, fs1) => (.error e, (fs1, st.2))
  ReadFile := fun st name =>
    match findSize st.2 (Clean name) with
    | some _ => (.error (.pathError "read" name Errno.ENOMEM), st)
    | none =>
      match SimFS.ReadFile st.1 name with
      | (r, fs1) => (r, (fs1, st.2))
  WriteFile := fun st name data perm =>
    match SimFS.WriteFile (fun _ => false) st.1 name data perm with
    | (none, fs1) => (none, (fs1, st.2.filter (fun kn => decide (kn.1 ≠ Clean name))))
    | (some e, fs1) => (some e, (fs1, st.2))
  Chmod := fun st name mode =>
    match SimFS.Chmod (fun _ => false) st.1 name mode with
    | (r, fs1) =>
      if Clean name = Clean trigger then (r, (fs1, (Clean victim, size) :: st.2))
      else (r, (fs1, st.2))
  MkdirAll := fun st name perm =>
    match SimFS.MkdirAll st.1 name perm with
    | (r, fs1) => (r, (fs1, st.2))
  Lstat := fun st root => (st.1.tree (st.1.length + 1) root, st)
  Rel := Rel
  Join := Join
  Dir := Dir

/-! ## The entries a walk visits -/

/-- One call of the function passed to `filepath.Walk`: the path, the
`FileInfo` (absent when `Lstat` failed) and the access error, if any. -/
structure Visit where
  path : String
  info : Option FileInfo
  err : Option GoError
  deriving DecidableEq

/-- A walk function that only notes the call it receives. -/
def recordVisit : WalkFunc (List Visit) :=
  fun path info err acc => (acc ++ [⟨path, info, err⟩], WalkRet.nil)

/-- The entries `filepath.Walk` visits from `root`, in order: the calls it
makes to a function that never stops it. -/
def visited (join : String → String → String) (root : String) (t : WalkTree) : List Visit :=
  (Walk join recordVisit root t []).1

/-- The visit met no access error and its entry is not a directory. -/
def Visit.isFile (v : Visit) : Bool :=
  match v.err, v.info with
  | none, some info => !info.IsDir
  | _, _ => false

/-- The visit met no access error and its entry is a regular file. -/
def Visit.isRegularFile (v : Visit) : Bool :=
  match v.err, v.info with
  | none, some info => info.Mode.IsRegular
  | _, _ => false

/-- The calls of a walk written out: the entry itself, then, for a
directory whose names could be read, the calls below each name. -/
def visitList (join : String → String → String) : String → WalkTree → List Visit
  | path, .lstatErr e => [⟨path, none, some e⟩]
  | path, .entry info readErr names =>
    if !info.IsDir then [⟨path, some info, none⟩]
    else if readErr.isSome then [⟨path, some info, readErr⟩]
    else ⟨path, some info, readErr⟩ :: visitNames join path names
where
  /-- The calls below the names of a directory. -/
  visitNames (join : String → String → String) : String → List (String × WalkTree) → List Visit
    | _, [] => []
    | path, (name, t) :: rest => visitList join (join path name) t ++ visitNames join path rest

/-- The captured variables after a walk function has received the visits. -/
def foldVisits {α : Type} (fn : WalkFunc α) (acc : α) (vs : List Visit) : α :=
  vs.foldl (fun a v => (fn v.path v.info v.err a).1) acc

/-- A source directory that holds one socket. -/
def socketFS : SimFS :=
  [("/src", Node.dir 0o755), ("/src/ctl", Node.socket 0o755)]

/-! ## Reading the record of a run -/

/-- Errors returned by the steps of a run, in order. -/
def errorsOf (tr : List Event) : List GoError :=
  tr.filterMap Event.err

/-- Message the report holds after the given errors: that of the last one,
or the empty string. -/
def lastMessage : List GoError → String
  | [] => ""
  | [e] => e.Error
  | _ :: e :: es => lastMessage (e :: es)

/-- A successful call of `getFileSize`: the file and the size reported. -/
def Event.sizeRead : Event → Option (String × Int)
  | .size file (.ok n) => some (file, n)
  | _ => none

/-- The files whose size was read and added to `TotalSize`, with the sizes. -/
def sizeReads (tr : List Event) : List (String × Int) :=
  tr.filterMap Event.sizeRead

/-- A failed call of `getFileSize`. -/
def Event.sizeFailure : Event → Option String
  | .size file (.error _) => some file
  | _ => none

/-- The files whose size could not be read. -/
def sizeFailures (tr : List Event) : List String :=
  tr.filterMap Event.sizeFailure

/-- A successful call of `copyFile`: the source file. -/
def Event.copied : Event → Option String
  | .copy src _ none => some src
  | _ => none

/-- The files copied successfully. -/
def copiedFiles (tr : List Event) : List String :=
  tr.filterMap Event.copied

/-- The loop processes every file of the list without leaving through
`break`, starting from `st`. -/
def allProcessed {σ : Type} (os : FileOps σ) (config : BackupConfig) :
    List String → RunState σ → Bool
  | [], _ => true
  | file :: rest, st =>
    match backupFile os config st file with
    | (_, true) => false
    | (st1, false) => allProcessed os config rest st1

/-- The source tree `a.txt` (5 bytes), `sub/b.txt` (10 bytes) under `/src`. -/
def sampleFS : SimFS :=
  [("/src", Node.dir 0o755), ("/src/a.txt", Node.file [1, 2, 3, 4, 5] 0o644),
   ("/src/sub", Node.dir 0o755),
   ("/src/sub/b.txt", Node.file [1, 2, 3, 4, 5, 6, 7, 8, 9, 10] 0o600)]

/-- A full backup of `/src` into `/dst`. -/
def sampleConfig : BackupConfig :=
  ⟨"/src", "/dst", "full"⟩

/-- A reading of the clock: 1 November 2026, 09:05:07. -/
def sampleTime : Time :=
  ⟨2026, 11, 1, 9, 5, 7, by decide, by decide, by decide, by decide, by decide, by decide⟩

/-- The report records the errors of the steps made so far: `Success` holds
exactly when no step returned an error, and `ErrorMessage` is the message
of the last error. -/
def Recorded (r : BackupReport) (tr : List Event) : Prop :=
  (r.Success = true ↔ errorsOf tr = []) ∧ r.ErrorMessage = lastMessage (errorsOf tr)

/-- The counters of the report agree with the record of the run:
`FilesBackedUp` counts the successful copies, `TotalSize` is the sum of the
sizes read as an `int64`, and every copied file had its size read or failed to. -/
def Counted (r : BackupReport) (tr : List Event) : Prop :=
  r.FilesBackedUp = ((copiedFiles tr).length : Int)
  ∧ r.TotalSize = wrapInt64 (((sizeReads tr).map Prod.snd).sum)
  ∧ (copiedFiles tr).length = (sizeReads tr).length + (sizeFailures tr).length

/-- A source tree whose second file `m.txt` has no read permission. -/
def unreadableFS : SimFS :=
  [("/src", Node.dir 0o755), ("/src/a.txt", Node.file [1, 2, 3, 4, 5] 0o644),
   ("/src/m.txt", Node.file [1, 2, 3] 0o000), ("/src/z.txt", Node.file [7] 0o644)]

/-- Elements of a cleaned path, without the empty ones. -/
def pathElems (p : String) : List (List Char) :=
  (splitSep (cleanChars p.data)).filter (fun e => decide (e ≠ []))

/-- The path lies under the root: both are absolute or both relative, and
the elements of the cleaned root begin those of the cleaned path. -/
def liesUnder (root path : String) : Bool :=
  decide ((cleanChars root.data).head? = some '/' ↔ (cleanChars path.data).head? = some '/')
    && (pathElems root).isPrefixOf (pathElems path)

/-- A tree with a file `/data/other/x` beside the source directory
`/data/src`, and the destination directory `/backup/dst`. -/
def outsideFS : SimFS :=
  [("/data", Node.dir 0o755), ("/data/src", Node.dir 0o755), ("/data/other", Node.dir 0o755),
   ("/data/other/x", Node.file [1, 2, 3] 0o644), ("/backup", Node.dir 0o755),
   ("/backup/dst", Node.dir 0o755)]

/-- A backup of `/data/src` into `/backup/dst`. -/
def outsideConfig : BackupConfig :=
  ⟨"/data/src", "/backup/dst", "full"⟩

/-- A run that has just started on `outsideFS`. -/
def outsideStart : RunState SimFS :=
  ⟨{ BackupReport.zero with Success := true }, outsideFS, []⟩

/-! ## The run as the specification describes it

The definitions of this section follow the words of the specification
(sections 4.6 and 7), not the code: they replay the calls of a run on the
operating system and collect what the steps return, for comparison with the
report `performFullBackup` builds. -/

/-- The steps of the specification for one file, in order: map the path,
ensure the destination subdirectory, replicate the file, read the resulting
size.  The first failing step ends them; the result is that error or the
size read, with the world the steps left. -/
def specFileSteps {σ : Type} (os : FileOps σ) (config : BackupConfig) (w : σ) (file : String) :
    Except GoError Int × σ :=
  match os.Rel config.SourcePath file with
  | .error e => (.error e, w)
  | .ok relativePath =>
    match createBackupDirectory os w
        (os.Dir (os.Join config.DestinationPath relativePath)) with
    | (some e, w1) => (.error e, w1)
    | (none, w1) =>
      match copyFile os w1 file (os.Join config.DestinationPath relativePath) with
      | (some e, w2) => (.error e, w2)
      | (none, w2) => getFileSize os w2 file

/-- State `CopyingFiles` of the specification: the files are taken in order
and the first failure aborts the remaining ones.  The result is the sizes
read before that and the error that stopped the loop, if any. -/
def specCopying {σ : Type} (os : FileOps σ) (config : BackupConfig) :
    List String → σ → List Int × Option GoError
  | [], _ => ([], none)
  | file :: rest, w =>
    match specFileSteps os config w file with
    | (.error e, _) => ([], some e)
    | (.ok size, w1) =>
      match specCopying os config rest w1 with
      | (sizes, e) => (size :: sizes, e)

/-- The files the state `Enumerating` of the specification obtains: what
`getDirectoryFiles` returns for the source in the world `DirectoryPrep`
left. -/
def specFiles {σ : Type} (os : FileOps σ) (config : BackupConfig) (s : σ) : List String :=
  (getDirectoryFiles os (createBackupDirectory os s config.DestinationPath).2
    config.SourcePath).1.1

/-- The world in which the state `CopyingFiles` of the specification starts. -/
def specLoopWorld {σ : Type} (os : FileOps σ) (config : BackupConfig) (s : σ) : σ :=
  (getDirectoryFiles os (createBackupDirectory os s config.DestinationPath).2
    config.SourcePath).2

/-- The errors the steps of a run return, in order: that of `DirectoryPrep`,
that of `Enumerating` (neither stops the run) and that of the first failing
file of `CopyingFiles`. -/
def specStepErrors {σ : Type} (os : FileOps σ) (config : BackupConfig) (s : σ) : List GoError :=
  (createBackupDirectory os s config.DestinationPath).1.toList
  ++ (getDirectoryFiles os (createBackupDirectory os s config.DestinationPath).2
        config.SourcePath).1.2.toList
  ++ (specCopying os config (specFiles os config s) (specLoopWorld os config s)).2.toList

/-- The sizes `getFileSize` reports for the files of a run, in order, up to
the first failure. -/
def specSizes {σ : Type} (os : FileOps σ) (config : BackupConfig) (s : σ) : List Int :=
  (specCopying os config (specFiles os config s) (specLoopWorld os config s)).1

/-- A source tree with one file in a subdirectory, and a socket in the
place of the parent of the destination. -/
def blockedFS : SimFS :=
  [("/src", Node.dir 0o755), ("/src/sub", Node.dir 0o755),
   ("/src/sub/b.txt", Node.file [1, 2, 3] 0o644), ("/dst", Node.socket 0o755)]

/-- A backup of `/src` into `/dst/backup`. -/
def blockedConfig : BackupConfig :=
  ⟨"/src", "/dst/backup", "full"⟩

theorem foldVisits_append {α : Type} (fn : WalkFunc α) (acc : α) (xs ys : List Visit) :
    foldVisits fn acc (xs ++ ys) = foldVisits fn (foldVisits fn acc xs) ys := by
  simp [foldVisits, List.foldl_append]

theorem walkFunc_eq_of_nil {α : Type} (fn : WalkFunc α)
    (hnil : ∀ p i e a, (fn p i e a).2 = WalkRet.nil) (p : String) (i : Option FileInfo)
    (e : Option GoError) (a : α) : fn p i e a = ((fn p i e a).1, WalkRet.nil) :=
  Prod.ext rfl (hnil p i e a)

mutual
theorem walk_eq_fold {α : Type} (join : String → String → String) (fn : WalkFunc α)
    (hnil : ∀ p i e a, (fn p i e a).2 = WalkRet.nil) :
    ∀ (path : String) (t : WalkTree) (acc : α),
      walk join fn path t acc = (foldVisits fn acc (visitList join path t), WalkRet.nil)
  | path, .lstatErr e, acc => by
    rw [walk, walkFunc_eq_of_nil fn hnil]
    simp [visitList, foldVisits]
  | path, .entry info readErr names, acc => by
    rw [walk, visitList]
    by_cases hd : info.IsDir = true
    · rw [walkFunc_eq_of_nil fn hnil path (some info) readErr acc]
      cases readErr with
      | some e => simp [hd, foldVisits]
      | none =>
        simp only [hd, Bool.not_true, Bool.false_eq_true, if_false, Option.isSome_none,
          ne_eq, not_true_eq_false, or_self]
        rw [walkNames_eq_fold join fn hnil path names]
        simp [foldVisits]
    · rw [walkFunc_eq_of_nil fn hnil path (some info) none acc]
      simp [hd, foldVisits]
theorem walkNames_eq_fold {α : Type} (join : String → String → String) (fn : WalkFunc α)
    (hnil : ∀ p i e a, (fn p i e a).2 = WalkRet.nil) :
    ∀ (path : String) (names : List (String × WalkTree)) (acc : α),
      walk.walkNames join fn path names acc
        = (foldVisits fn acc (visitList.visitNames join path names), WalkRet.nil)
  | path, [], acc => by simp [walk.walkNames, visitList.visitNames, foldVisits]
  | path, (name, .lstatErr e) :: rest, acc => by
    rw [walk.walkNames, walkFunc_eq_of_nil fn hnil]
    simp only [ne_eq, not_true_eq_false, false_and, if_false]
    rw [walkNames_eq_fold join fn hnil path rest]
    simp [visitList.visitNames, visitList, foldVisits]
  | path, (name, .entry info readErr names) :: rest, acc => by
    rw [walk.walkNames, walk_eq_fold join fn hnil (join path name) (.entry info readErr names)]
    simp only [ne_eq, not_true_eq_false, false_and, if_false]
    rw [walkNames_eq_fold join fn hnil path rest]
    rw [visitList.visitNames, foldVisits_append]
end
theorem foldVisits_recordVisit (acc vs : List Visit) :
    foldVisits recordVisit acc vs = acc ++ vs := by
  induction vs generalizing acc with
  | nil => simp [foldVisits]
  | cons v vs ih =>
    have h := ih (acc ++ [v])
    simp only [foldVisits, List.foldl_cons] at h ⊢
    rw [show (recordVisit v.path v.info v.err acc).1 = acc ++ [v] from rfl, h]
    simp

theorem visited_eq_visitList (join : String → String → String) (root : String) (t : WalkTree) :
    visited join root t = visitList join root t := by
  simp [visited, Walk, walk_eq_fold join recordVisit (fun _ _ _ _ => rfl),
    foldVisits_recordVisit]

theorem collectFile_nil (p : String) (i : Option FileInfo) (e : Option GoError)
    (a : List String) : (collectFile p i e a).2 = WalkRet.nil := by
  cases e <;> cases i <;> simp [collectFile]
  split <;> rfl

theorem collectFile_fst (v : Visit) (a : List String) :
    (collectFile v.path v.info v.err a).1 = a ++ (if v.isFile then [v.path] else []) := by
  obtain ⟨p, i, e⟩ := v
  cases e <;> cases i <;> simp [collectFile, Visit.isFile]
  split <;> simp_all

theorem foldVisits_collectFile (acc : List String) (vs : List Visit) :
    foldVisits collectFile acc vs = acc ++ (vs.filter Visit.isFile).map Visit.path := by
  induction vs generalizing acc with
  | nil => simp [foldVisits]
  | cons v vs ih =>
    have h := ih ((collectFile v.path v.info v.err acc).1)
    simp only [foldVisits, List.foldl_cons] at h ⊢
    rw [h, collectFile_fst]
    by_cases hv : v.isFile = true <;> simp [List.filter_cons, hv]

/-- C9 (amended): `getDirectoryFiles` returns, in visit order, exactly the
paths of the entries the walk visited without an access error and that are
not directories, and it returns no error. -/
theorem getDirectoryFiles_visited {σ : Type} (os : FileOps σ) (s : σ) (dirPath : String) :
    (getDirectoryFiles os s dirPath).1
      = (((visited os.Join dirPath (os.Lstat s dirPath).1).filter Visit.isFile).map Visit.path,
          none) := by
  simp [getDirectoryFiles, Walk, walk_eq_fold os.Join collectFile collectFile_nil,
    foldVisits_collectFile, visited_eq_visitList]

/-- C9 as stated fails: under a source directory that holds a socket,
`getDirectoryFiles` returns the path of the socket, which is not among the
regular files the walk visited. -/
theorem getDirectoryFiles_emits_socket :
    (getDirectoryFiles simOps socketFS "/src").1.1 = ["/src/ctl"]
    ∧ ((visited simOps.Join "/src" (simOps.Lstat socketFS "/src").1).filter
        Visit.isRegularFile).map Visit.path = []
    ∧ ¬ (getDirectoryFiles simOps socketFS "/src").1.1
        = ((visited simOps.Join "/src" (simOps.Lstat socketFS "/src").1).filter
            Visit.isRegularFile).map Visit.path := by
  refine ⟨by decide, by decide, by decide⟩

theorem errorsOf_append (a b : List Event) : errorsOf (a ++ b) = errorsOf a ++ errorsOf b := by
  simp [errorsOf, List.filterMap_append]

theorem lastMessage_append_singleton (es : List GoError) (e : GoError) :
    lastMessage (es ++ [e]) = e.Error := by
  induction es with
  | nil => rfl
  | cons a es ih =>
    cases es with
    | nil => rfl
    | cons b es => simpa [lastMessage] using ih

theorem Recorded.fail {r : BackupReport} {tr : List Event} (ev : Event) (e : GoError)
    (he : ev.err = some e) : Recorded (r.fail e) (tr ++ [ev]) := by
  have h : errorsOf (tr ++ [ev]) = errorsOf tr ++ [e] := by
    simp [errorsOf, List.filterMap_append, he]
  constructor
  · simp [BackupReport.fail, h]
  · simp [BackupReport.fail, h, lastMessage_append_singleton]

theorem Recorded.keep (r : BackupReport) {r1 : BackupReport} {tr : List Event} (ev : Event)
    (h : Recorded r tr) (he : ev.err = none) (hs : r1.Success = r.Success)
    (hm : r1.ErrorMessage = r.ErrorMessage) : Recorded r1 (tr ++ [ev]) := by
  have h1 : errorsOf (tr ++ [ev]) = errorsOf tr := by
    simp [errorsOf, List.filterMap_append, he]
  unfold Recorded
  rw [h1, hs, hm]
  exact h

theorem backupFile_recorded {σ : Type} (os : FileOps σ) (config : BackupConfig)
    (st : RunState σ) (file : String) (h : Recorded st.report st.trace) :
    Recorded (backupFile os config st file).1.report (backupFile os config st file).1.trace := by
  have h1 : ∀ rel, os.Rel config.SourcePath file = .ok rel →
      Recorded st.report
        (st.trace ++ [Event.mapPath config.SourcePath file (os.Rel config.SourcePath file)]) :=
    fun rel hrel => Recorded.keep st.report _ h (by simp [Event.err, hrel]) rfl rfl
  unfold backupFile
  simp only []
  split
  · exact Recorded.fail _ _ (by simp [Event.err, *])
  · rename_i rel hrel
    split
    · exact Recorded.fail _ _ rfl
    · split
      · exact Recorded.fail _ _ rfl
      · split
        · exact Recorded.fail _ _ rfl
        · exact Recorded.keep st.report _ (Recorded.keep st.report _
            (Recorded.keep st.report _ (h1 rel hrel) rfl rfl rfl) rfl rfl rfl) rfl rfl rfl
theorem copyLoop_recorded {σ : Type} (os : FileOps σ) (config : BackupConfig)
    (files : List String) : ∀ st : RunState σ, Recorded st.report st.trace →
      Recorded (copyLoop os config files st).report (copyLoop os config files st).trace := by
  induction files with
  | nil => intro st h; exact h
  | cons file rest ih =>
    intro st h
    have hb := backupFile_recorded os config st file h
    unfold copyLoop
    split
    · rename_i st1 heq; rw [heq] at hb; exact hb
    · rename_i st1 heq; rw [heq] at hb; exact ih st1 hb

theorem prepareDestination_recorded {σ : Type} (os : FileOps σ) (config : BackupConfig) (s : σ) :
    Recorded (prepareDestination os config s).report (prepareDestination os config s).trace := by
  unfold prepareDestination
  simp only []
  split
  · exact @Recorded.fail _ [] _ _ rfl
  · constructor <;> simp [errorsOf, Event.err, lastMessage, BackupReport.zero]

theorem listSource_recorded {σ : Type} (os : FileOps σ) (config : BackupConfig)
    (st : RunState σ) (h : Recorded st.report st.trace) :
    Recorded (listSource os config st).2.report (listSource os config st).2.trace := by
  unfold listSource
  split
  · exact Recorded.fail _ _ rfl
  · exact Recorded.keep st.report _ h rfl rfl rfl

theorem performFullBackup_recorded {σ : Type} (os : FileOps σ) (config : BackupConfig) (s : σ)
    (duration : String) (finish : Time) :
    Recorded (performFullBackup os config s duration finish).report
      (performFullBackup os config s duration finish).trace := by
  have h := copyLoop_recorded os config (listSource os config (prepareDestination os config s)).1
    _ (listSource_recorded os config _ (prepareDestination_recorded os config s))
  exact h

theorem GoError.Error_ne_empty (e : GoError) : e.Error ≠ "" := by
  intro h
  have hl : e.Error.length = 0 := by rw [h]; rfl
  cases e with
  | pathError op path err =>
    simp only [GoError.Error, String.length_append] at hl
    have : (" " : String).length = 1 := rfl
    omega
  | relError targ base =>
    simp only [GoError.Error, String.length_append] at hl
    have : ("Rel: can't make " : String).length = 16 := rfl
    omega

theorem lastMessage_ne_empty (es : List GoError) (h : es ≠ []) : lastMessage es ≠ "" := by
  obtain ⟨init, e, rfl⟩ : ∃ init e, es = init ++ [e] :=
    ⟨es.dropLast, es.getLast h, (List.dropLast_append_getLast h).symm⟩
  rw [lastMessage_append_singleton]
  exact GoError.Error_ne_empty e

theorem backupFile_trace {σ : Type} (os : FileOps σ) (config : BackupConfig)
    (st : RunState σ) (file : String) :
    ∃ evs, (backupFile os config st file).1.trace = st.trace ++ evs := by
  unfold backupFile
  simp only []
  split
  · exact ⟨_, rfl⟩
  · split
    · exact ⟨_, by simp only [List.append_assoc]; rfl⟩
    · split
      · exact ⟨_, by simp only [List.append_assoc]; rfl⟩
      · split
        · exact ⟨_, by simp only [List.append_assoc]; rfl⟩
        · exact ⟨_, by simp only [List.append_assoc]; rfl⟩

theorem copyLoop_trace {σ : Type} (os : FileOps σ) (config : BackupConfig)
    (files : List String) :
    ∀ st : RunState σ, ∃ evs, (copyLoop os config files st).trace = st.trace ++ evs := by
  induction files with
  | nil => intro st; exact ⟨[], by simp [copyLoop]⟩
  | cons file rest ih =>
    intro st
    obtain ⟨e1, h1⟩ := backupFile_trace os config st file
    unfold copyLoop
    split
    · rename_i st1 heq; rw [heq] at h1; exact ⟨e1, h1⟩
    · rename_i st1 heq
      rw [heq] at h1
      obtain ⟨e2, h2⟩ := ih st1
      exact ⟨e1 ++ e2, by rw [h2, h1, List.append_assoc]⟩

theorem listSource_world_trace {σ : Type} (os : FileOps σ) (config : BackupConfig)
    (st : RunState σ) :
    (listSource os config st).1 = (getDirectoryFiles os st.world config.SourcePath).1.1
    ∧ (listSource os config st).2.world = (getDirectoryFiles os st.world config.SourcePath).2
    ∧ (listSource os config st).2.trace
        = st.trace ++ [Event.listFiles config.SourcePath
            (getDirectoryFiles os st.world config.SourcePath).1.1
            (getDirectoryFiles os st.world config.SourcePath).1.2] := by
  unfold listSource
  split <;> rename_i heq <;> simp [heq]

/-- C3: when `createBackupDirectory` fails on the destination,
`performFullBackup` still calls `getDirectoryFiles` (in the world the failed
call left) and runs the copy loop on the files it returns, and the report
has `Success == false` and a non-empty `ErrorMessage` whatever the later
steps do. -/
theorem performFullBackup_destination_error {σ : Type} (os : FileOps σ)
    (config : BackupConfig) (s : σ) (duration : String) (finish : Time) (err : GoError)
    (s1 : σ) (h : createBackupDirectory os s config.DestinationPath = (some err, s1)) :
    (performFullBackup os config s duration finish).report.Success = false
    ∧ (performFullBackup os config s duration finish).report.ErrorMessage ≠ ""
    ∧ ∃ st : RunState σ,
        st.world = (getDirectoryFiles os s1 config.SourcePath).2
        ∧ st.trace = [Event.createDir config.DestinationPath (some err),
            Event.listFiles config.SourcePath (getDirectoryFiles os s1 config.SourcePath).1.1
              (getDirectoryFiles os s1 config.SourcePath).1.2]
        ∧ (performFullBackup os config s duration finish).world
            = (copyLoop os config (getDirectoryFiles os s1 config.SourcePath).1.1 st).world
        ∧ (performFullBackup os config s duration finish).trace
            = (copyLoop os config (getDirectoryFiles os s1 config.SourcePath).1.1 st).trace := by
  have hp : (prepareDestination os config s).world = s1
      ∧ (prepareDestination os config s).trace
          = [Event.createDir config.DestinationPath (some err)] := by
    simp [prepareDestination, h]
  obtain ⟨hl1, hl2, hl3⟩ := listSource_world_trace os config (prepareDestination os config s)
  rw [hp.1] at hl1 hl2 hl3
  rw [hp.2] at hl3
  have hrun : (performFullBackup os config s duration finish).trace
      = (copyLoop os config (listSource os config (prepareDestination os config s)).1
          (listSource os config (prepareDestination os config s)).2).trace := rfl
  have hw : (performFullBackup os config s duration finish).world
      = (copyLoop os config (listSource os config (prepareDestination os config s)).1
          (listSource os config (prepareDestination os config s)).2).world := rfl
  obtain ⟨evs, hevs⟩ := copyLoop_trace os config
    (listSource os config (prepareDestination os config s)).1
    (listSource os config (prepareDestination os config s)).2
  have herrs : errorsOf (performFullBackup os config s duration finish).trace ≠ [] := by
    rw [hrun, hevs, hl3]
    simp [errorsOf, List.filterMap_append, List.filterMap_cons, Event.err]
  obtain ⟨r1, r2⟩ := performFullBackup_recorded os config s duration finish
  refine ⟨?_, ?_, (listSource os config (prepareDestination os config s)).2, hl2, hl3, ?_, ?_⟩
  · cases hS : (performFullBackup os config s duration finish).report.Success with
    | false => rfl
    | true => exact absurd (r1.mp hS) herrs
  · rw [r2]; exact lastMessage_ne_empty _ herrs
  · rw [hw, hl1]
  · rw [hrun, hl1]

/-- C3 on the sample tree with a socket in the place of the parent of the
destination. -/
theorem performFullBackup_destination_error_witness :
    createBackupDirectory simOps (("/dst", Node.socket 0o755) :: sampleFS) "/dst/backup"
        = (some (GoError.pathError "stat" "/dst/backup" Errno.ENOTDIR),
            ("/dst", Node.socket 0o755) :: sampleFS)
    ∧ (performFullBackup simOps ⟨"/src", "/dst/backup", "full"⟩
        (("/dst", Node.socket 0o755) :: sampleFS) "0.00 seconds" sampleTime).report.Success
        = false :=
  ⟨by decide,
    (performFullBackup_destination_error simOps ⟨"/src", "/dst/backup", "full"⟩
      (("/dst", Node.socket 0o755) :: sampleFS) "0.00 seconds" sampleTime
      (GoError.pathError "stat" "/dst/backup" Errno.ENOTDIR)
      (("/dst", Node.socket 0o755) :: sampleFS) (by decide)).1⟩

theorem backupFile_cases {σ : Type} (os : FileOps σ) (config : BackupConfig)
    (st : RunState σ) (file : String) :
    ((backupFile os config st file).2 = false
      ∧ ∃ sz : Int,
          (backupFile os config st file).1.report
            = { st.report with FilesBackedUp := st.report.FilesBackedUp + 1,
                               TotalSize := wrapInt64 (st.report.TotalSize + sz) }
          ∧ sizeReads (backupFile os config st file).1.trace
              = sizeReads st.trace ++ [(file, sz)]
          ∧ copiedFiles (backupFile os config st file).1.trace = copiedFiles st.trace ++ [file]
          ∧ sizeFailures (backupFile os config st file).1.trace = sizeFailures st.trace)
    ∨ ((backupFile os config st file).2 = true
      ∧ (backupFile os config st file).1.report.Success = false
      ∧ (backupFile os config st file).1.report.TotalSize = st.report.TotalSize
      ∧ sizeReads (backupFile os config st file).1.trace = sizeReads st.trace
      ∧ (((backupFile os config st file).1.report.FilesBackedUp = st.report.FilesBackedUp
          ∧ copiedFiles (backupFile os config st file).1.trace = copiedFiles st.trace
          ∧ sizeFailures (backupFile os config st file).1.trace = sizeFailures st.trace)
        ∨ ((backupFile os config st file).1.report.FilesBackedUp = st.report.FilesBackedUp + 1
          ∧ copiedFiles (backupFile os config st file).1.trace
              = copiedFiles st.trace ++ [file]
          ∧ sizeFailures (backupFile os config st file).1.trace
              = sizeFailures st.trace ++ [file]))) := by
  unfold backupFile
  simp only []
  split
  · right
    simp [BackupReport.fail, sizeReads, copiedFiles, sizeFailures, List.filterMap_append,
      Event.sizeRead, Event.copied, Event.sizeFailure]
  · split
    · right
      simp [BackupReport.fail, sizeReads, copiedFiles, sizeFailures, List.filterMap_append,
        Event.sizeRead, Event.copied, Event.sizeFailure]
    · split
      · right
        simp [BackupReport.fail, sizeReads, copiedFiles, sizeFailures, List.filterMap_append,
          Event.sizeRead, Event.copied, Event.sizeFailure]
      · split
        · right
          simp [BackupReport.fail, sizeReads, copiedFiles, sizeFailures, List.filterMap_append,
            Event.sizeRead, Event.copied, Event.sizeFailure]
        · left
          rename_i sz _ _
          refine ⟨rfl, sz, ?_⟩
          simp [sizeReads, copiedFiles, sizeFailures, List.filterMap_append,
            Event.sizeRead, Event.copied, Event.sizeFailure]
theorem wrapInt64_add (a b : Int) : wrapInt64 (wrapInt64 a + b) = wrapInt64 (a + b) := by
  unfold wrapInt64
  omega

theorem wrapInt64_of_range (x : Int) (h1 : -9223372036854775808 ≤ x)
    (h2 : x < 9223372036854775808) : wrapInt64 x = x := by
  unfold wrapInt64
  omega

theorem backupFile_counted {σ : Type} (os : FileOps σ) (config : BackupConfig)
    (st : RunState σ) (file : String) (h : Counted st.report st.trace) :
    Counted (backupFile os config st file).1.report (backupFile os config st file).1.trace := by
  obtain ⟨h1, h2, h3⟩ := h
  rcases backupFile_cases os config st file with ⟨_, sz, hr, hs, hc, hf⟩ | ⟨_, _, ht, hs, hrest⟩
  · refine ⟨?_, ?_, ?_⟩
    · rw [hr, hc]; simp [h1]
    · rw [hr, hs]
      simp only [List.map_append, List.map_cons, List.map_nil, List.sum_append,
        List.sum_cons, List.sum_nil, add_zero]
      rw [h2, wrapInt64_add]
    · rw [hc, hs, hf]; simp; omega
  · rcases hrest with ⟨hn, hc, hf⟩ | ⟨hn, hc, hf⟩
    · exact ⟨by rw [hn, hc]; exact h1, by rw [ht, hs]; exact h2, by rw [hc, hs, hf]; exact h3⟩
    · refine ⟨?_, by rw [ht, hs]; exact h2, ?_⟩
      · rw [hn, hc]; simp [h1]
      · rw [hc, hs, hf]; simp; omega

theorem copyLoop_counted {σ : Type} (os : FileOps σ) (config : BackupConfig)
    (files : List String) : ∀ st : RunState σ, Counted st.report st.trace →
      sizeFailures st.trace = [] →
      Counted (copyLoop os config files st).report (copyLoop os config files st).trace
      ∧ (sizeFailures (copyLoop os config files st).trace).length ≤ 1 := by
  induction files with
  | nil => intro st h hf; exact ⟨h, by simp [copyLoop, hf]⟩
  | cons file rest ih =>
    intro st h hf
    have hc := backupFile_counted os config st file h
    have hcase := backupFile_cases os config st file
    unfold copyLoop
    split
    · rename_i st1 heq
      rw [heq] at hc hcase
      refine ⟨hc, ?_⟩
      rcases hcase with ⟨hb, _⟩ | ⟨_, _, _, _, hrest⟩
      · simp at hb
      · rcases hrest with ⟨_, _, hf1⟩ | ⟨_, _, hf1⟩ <;> simp at hf1 <;> simp [hf1, hf]
    · rename_i st1 heq
      rw [heq] at hc hcase
      rcases hcase with ⟨_, sz, _, _, _, hf1⟩ | ⟨hb, _⟩
      · exact ih st1 hc (by simp at hf1; rw [hf1, hf])
      · simp at hb

theorem listSource_initial {σ : Type} (os : FileOps σ) (config : BackupConfig) (s : σ) :
    (listSource os config (prepareDestination os config s)).2.report.FilesBackedUp = 0
    ∧ (listSource os config (prepareDestination os config s)).2.report.TotalSize = 0
    ∧ sizeReads (listSource os config (prepareDestination os config s)).2.trace = []
    ∧ copiedFiles (listSource os config (prepareDestination os config s)).2.trace = []
    ∧ sizeFailures (listSource os config (prepareDestination os config s)).2.trace = [] := by
  unfold listSource prepareDestination
  simp only []
  split <;> split <;> rename_i h1 _ _ _ h2 <;>
    simp [BackupReport.fail, BackupReport.zero, sizeReads, copiedFiles, sizeFailures,
      Event.sizeRead, Event.copied, Event.sizeFailure]
theorem performFullBackup_counted {σ : Type} (os : FileOps σ) (config : BackupConfig) (s : σ)
    (duration : String) (finish : Time) :
    Counted (performFullBackup os config s duration finish).report
      (performFullBackup os config s duration finish).trace
    ∧ (sizeFailures (performFullBackup os config s duration finish).trace).length ≤ 1 := by
  obtain ⟨h1, h2, h3, h4, h5⟩ := listSource_initial os config s
  have hC : Counted (listSource os config (prepareDestination os config s)).2.report
      (listSource os config (prepareDestination os config s)).2.trace := by
    unfold Counted
    rw [h1, h2, h3, h4, h5]
    exact ⟨rfl, by decide, rfl⟩
  exact copyLoop_counted os config (listSource os config (prepareDestination os config s)).1 _
    hC h5

theorem copyLoop_success {σ : Type} (os : FileOps σ) (config : BackupConfig)
    (files : List String) : ∀ st : RunState σ,
      (copyLoop os config files st).report.Success = true →
      (copyLoop os config files st).report.FilesBackedUp
          = st.report.FilesBackedUp + (files.length : Int)
      ∧ (sizeReads (copyLoop os config files st).trace).map Prod.fst
          = (sizeReads st.trace).map Prod.fst ++ files := by
  induction files with
  | nil => intro st _; simp [copyLoop]
  | cons file rest ih =>
    intro st
    have hcase := backupFile_cases os config st file
    unfold copyLoop
    split
    · rename_i st1 heq
      rw [heq] at hcase
      intro hS
      rcases hcase with ⟨hb, _⟩ | ⟨_, hF, _⟩
      · simp at hb
      · simp only [] at hF hS; rw [hF] at hS; exact absurd hS (by decide)
    · rename_i st1 heq
      rw [heq] at hcase
      intro hS
      rcases hcase with ⟨_, sz, hr, hs, _, _⟩ | ⟨hb, _⟩
      · obtain ⟨i1, i2⟩ := ih st1 hS
        simp only [] at hr hs
        rw [i1, i2, hr, hs]
        constructor
        · simp; omega
        · simp
      · simp at hb

theorem copyLoop_append {σ : Type} (os : FileOps σ) (config : BackupConfig)
    (pre rest : List String) : ∀ st : RunState σ, allProcessed os config pre st = true →
      copyLoop os config (pre ++ rest) st = copyLoop os config rest (copyLoop os config pre st)
      ∧ (copyLoop os config pre st).report.FilesBackedUp
          = st.report.FilesBackedUp + (pre.length : Int)
      ∧ (copyLoop os config pre st).report.Success = st.report.Success := by
  induction pre with
  | nil => intro st _; simp [copyLoop]
  | cons file pre ih =>
    intro st h
    have hcase := backupFile_cases os config st file
    obtain ⟨st1, b, heq⟩ : ∃ st1 b, backupFile os config st file = (st1, b) := ⟨_, _, rfl⟩
    rw [heq] at hcase
    cases b with
    | true => simp [allProcessed, heq] at h
    | false =>
      have h1 : allProcessed os config pre st1 = true := by
        simpa [allProcessed, heq] using h
      have e1 : copyLoop os config (file :: pre ++ rest) st
          = copyLoop os config (pre ++ rest) st1 := by
        simp [copyLoop, heq]
      have e2 : copyLoop os config (file :: pre) st = copyLoop os config pre st1 := by
        simp [copyLoop, heq]
      obtain ⟨i1, i2, i3⟩ := ih st1 h1
      rw [e1, e2]
      rcases hcase with ⟨_, sz, hr, _⟩ | ⟨hb, _⟩
      · simp only [] at hr
        refine ⟨i1, ?_, ?_⟩
        · rw [i2, hr]; simp; omega
        · rw [i3, hr]
      · simp at hb

/-- C2: when the files before index `i` are processed without error and
`copyFile` fails on the file at index `i`, `performFullBackup` returns
`Success == false` and `FilesBackedUp == i`, the message is that of the
failed copy, and the run ends there: the world is the one the failed copy
left and the last steps of the run are the three steps made for that
file, so nothing is done for any later file. -/
theorem performFullBackup_copy_failure {σ : Type} (os : FileOps σ) (config : BackupConfig)
    (s : σ) (duration : String) (finish : Time) (pre post : List String)
    (file relativePath : String) (err : GoError) (w1 w2 : σ)
    (hfiles : (listSource os config (prepareDestination os config s)).1 = pre ++ file :: post)
    (hpre : allProcessed os config pre (listSource os config (prepareDestination os config s)).2
      = true)
    (hrel : os.Rel config.SourcePath file = .ok relativePath)
    (hdir : createBackupDirectory os
        (copyLoop os config pre (listSource os config (prepareDestination os config s)).2).world
        (os.Dir (os.Join config.DestinationPath relativePath)) = (none, w1))
    (hcopy : copyFile os w1 file (os.Join config.DestinationPath relativePath)
      = (some err, w2)) :
    (performFullBackup os config s duration finish).report.Success = false
    ∧ (performFullBackup os config s duration finish).report.FilesBackedUp = (pre.length : Int)
    ∧ (performFullBackup os config s duration finish).report.ErrorMessage = err.Error
    ∧ (performFullBackup os config s duration finish).world = w2
    ∧ (performFullBackup os config s duration finish).trace
      = (copyLoop os config pre (listSource os config (prepareDestination os config s)).2).trace
        ++ [Event.mapPath config.SourcePath file (.ok relativePath),
            Event.createDir (os.Dir (os.Join config.DestinationPath relativePath)) none,
            Event.copy file (os.Join config.DestinationPath relativePath) (some err)] := by
  obtain ⟨a1, a2, _⟩ := copyLoop_append os config pre (file :: post) _ hpre
  have h0 := (listSource_initial os config s).1
  have hstep : copyLoop os config (file :: post)
        (copyLoop os config pre (listSource os config (prepareDestination os config s)).2)
      = ⟨(copyLoop os config pre
            (listSource os config (prepareDestination os config s)).2).report.fail err, w2,
          (copyLoop os config pre (listSource os config (prepareDestination os config s)).2).trace
          ++ [Event.mapPath config.SourcePath file (.ok relativePath),
              Event.createDir (os.Dir (os.Join config.DestinationPath relativePath)) none,
              Event.copy file (os.Join config.DestinationPath relativePath) (some err)]⟩ := by
    simp [copyLoop, backupFile, hrel, hdir, hcopy]
  have hrun : performFullBackup os config s duration finish
      = { copyLoop os config (pre ++ file :: post)
            (listSource os config (prepareDestination os config s)).2 with
          report := { (copyLoop os config (pre ++ file :: post)
              (listSource os config (prepareDestination os config s)).2).report with
            Duration := duration, Timestamp := formatReportStamp finish } } := by
    rw [← hfiles]; rfl
  rw [hrun, a1, hstep]
  refine ⟨rfl, ?_, rfl, rfl, rfl⟩
  simp only [BackupReport.fail]
  rw [a2, h0]; simp
/-- C2 on a source tree whose second file of three cannot be read: one file
is counted and the third file is not copied. -/
theorem performFullBackup_copy_failure_witness :
    (performFullBackup simOps sampleConfig unreadableFS "0.00 seconds" sampleTime).report.Success
      = false
    ∧ (performFullBackup simOps sampleConfig unreadableFS "0.00 seconds"
        sampleTime).report.FilesBackedUp = 1
    ∧ (performFullBackup simOps sampleConfig unreadableFS "0.00 seconds" sampleTime).world.get
        "/dst/z.txt" = none :=
  have h := performFullBackup_copy_failure simOps sampleConfig unreadableFS "0.00 seconds"
    sampleTime ["/src/a.txt"] ["/src/z.txt"] "/src/m.txt" "m.txt"
    (GoError.pathError "open" "/src/m.txt" Errno.EACCES)
    (copyLoop simOps sampleConfig ["/src/a.txt"]
      (listSource simOps sampleConfig (prepareDestination simOps sampleConfig unreadableFS)).2).world
    (copyLoop simOps sampleConfig ["/src/a.txt"]
      (listSource simOps sampleConfig (prepareDestination simOps sampleConfig unreadableFS)).2).world
    (by decide) (by decide) (by rfl) (by decide) (by decide)
  ⟨h.1, h.2.1, by decide⟩

/-- C5 as stated fails: for the file `/data/other/x`, which does not lie
under the source root `/data/src`, `filepath.Rel` returns `../other/x`
without an error; the loop body goes on, keeps `Success == true` and copies
the file to `/backup/other/x`, outside the destination root `/backup/dst`. -/
theorem backupFile_outside_root :
    liesUnder "/data/src" "/data/other/x" = false
    ∧ simOps.Rel "/data/src" "/data/other/x" = .ok "../other/x"
    ∧ simOps.Join "/backup/dst" "../other/x" = "/backup/other/x"
    ∧ liesUnder "/backup/dst" "/backup/other/x" = false
    ∧ (backupFile simOps outsideConfig outsideStart "/data/other/x").2 = false
    ∧ (backupFile simOps outsideConfig outsideStart "/data/other/x").1.report.Success = true
    ∧ (backupFile simOps outsideConfig outsideStart "/data/other/x").1.world.get
        "/backup/other/x" = some (Node.file [1, 2, 3] 0o644) := by
  refine ⟨by decide, by rfl, by decide, by decide, by decide, by decide, by decide⟩

/-- C5 (amended): when `filepath.Rel` returns an error for a file, the run
records `Success == false` with the message of that error and stops: no
destination path is computed, no call is made for this file or a later
one, and the world is unchanged. -/
theorem copyLoop_rel_error {σ : Type} (os : FileOps σ) (config : BackupConfig)
    (st : RunState σ) (file : String) (rest : List String) (err : GoError)
    (h : os.Rel config.SourcePath file = .error err) :
    (copyLoop os config (file :: rest) st).report.Success = false
    ∧ (copyLoop os config (file :: rest) st).report.ErrorMessage = err.Error
    ∧ (copyLoop os config (file :: rest) st).report.FilesBackedUp = st.report.FilesBackedUp
    ∧ (copyLoop os config (file :: rest) st).world = st.world
    ∧ (copyLoop os config (file :: rest) st).trace
        = st.trace ++ [Event.mapPath config.SourcePath file (.error err)] := by
  have hb : backupFile os config st file
      = (⟨st.report.fail err, st.world,
          st.trace ++ [Event.mapPath config.SourcePath file (.error err)]⟩, true) := by
    simp [backupFile, h]
  simp [copyLoop, hb, BackupReport.fail]

/-- C5 (amended) for a relative source root and an absolute file path, which
`filepath.Rel` rejects. -/
theorem copyLoop_rel_error_witness :
    simOps.Rel "data/src" "/data/other/x" = .error (GoError.relError "/data/other/x" "data/src")
    ∧ (copyLoop simOps ⟨"data/src", "/backup/dst", "full"⟩ ["/data/other/x", "/data/other/y"]
        outsideStart).report.Success = false
    ∧ (copyLoop simOps ⟨"data/src", "/backup/dst", "full"⟩ ["/data/other/x", "/data/other/y"]
        outsideStart).world = outsideFS :=
  have h := copyLoop_rel_error simOps ⟨"data/src", "/backup/dst", "full"⟩ outsideStart
    "/data/other/x" ["/data/other/y"] (GoError.relError "/data/other/x" "data/src") (by rfl)
  ⟨by rfl, h.1, h.2.2.2.1⟩

theorem createBackupDirectory_existing_dir (fs : SimFS) (backupPath : String) (perm : Nat)
    (h : fs.resolve backupPath = .ok (Node.dir perm)) :
    createBackupDirectory simOps fs backupPath = (none, fs) := by
  simp [createBackupDirectory, simOps, simOpsIn, SimFS.Stat, h]

/-- C6 at a path that exists as a regular file: `createBackupDirectory`
returns no error and leaves the file system as it is, so the path is still
a file and not a directory; `os.MkdirAll`, which the function calls only
for a missing path, reports `not a directory` for the same path. -/
theorem createBackupDirectory_on_file :
    sampleFS.resolve "/src/a.txt" = .ok (Node.file [1, 2, 3, 4, 5] 0o644)
    ∧ createBackupDirectory simOps sampleFS "/src/a.txt" = (none, sampleFS)
    ∧ (createBackupDirectory simOps sampleFS "/src/a.txt").2.resolve "/src/a.txt"
        = .ok (Node.file [1, 2, 3, 4, 5] 0o644)
    ∧ simOps.MkdirAll sampleFS "/src/a.txt" 0o755
        = (some (GoError.pathError "mkdir" "/src/a.txt" Errno.ENOTDIR), sampleFS) := by
  refine ⟨by rfl, by decide, by rfl, by decide⟩

theorem backupFile_spec_error {σ : Type} (os : FileOps σ) (config : BackupConfig)
    (st : RunState σ) (file : String) (e : GoError) (w : σ)
    (h : specFileSteps os config st.world file = (.error e, w)) :
    (backupFile os config st file).2 = true
    ∧ (backupFile os config st file).1.world = w
    ∧ errorsOf (backupFile os config st file).1.trace = errorsOf st.trace ++ [e]
    ∧ sizeReads (backupFile os config st file).1.trace = sizeReads st.trace := by
  unfold specFileSteps at h
  unfold backupFile
  simp only []
  cases hrel : os.Rel config.SourcePath file with
  | error e1 =>
    simp only [hrel, Prod.mk.injEq, Except.error.injEq] at h
    simp [errorsOf, sizeReads, List.filterMap_append, Event.err, Event.sizeRead, h.1, h.2]
  | ok rel =>
    simp only [hrel] at h ⊢
    obtain ⟨d, w1, hd⟩ : ∃ d w1, createBackupDirectory os st.world
        (os.Dir (os.Join config.DestinationPath rel)) = (d, w1) := ⟨_, _, rfl⟩
    simp only [hd] at h ⊢
    cases d with
    | some e1 =>
      simp only [Prod.mk.injEq, Except.error.injEq] at h
      simp [errorsOf, sizeReads, List.filterMap_append, Event.err, Event.sizeRead, h.1, h.2]
    | none =>
      simp only [] at h ⊢
      obtain ⟨c, w2, hc⟩ : ∃ c w2, copyFile os w1 file
          (os.Join config.DestinationPath rel) = (c, w2) := ⟨_, _, rfl⟩
      simp only [hc] at h ⊢
      cases c with
      | some e1 =>
        simp only [Prod.mk.injEq, Except.error.injEq] at h
        simp [errorsOf, sizeReads, List.filterMap_append, Event.err, Event.sizeRead, h.1, h.2]
      | none =>
        simp only [] at h ⊢
        rw [h]
        simp [errorsOf, sizeReads, List.filterMap_append, Event.err, Event.sizeRead]

theorem backupFile_spec_ok {σ : Type} (os : FileOps σ) (config : BackupConfig)
    (st : RunState σ) (file : String) (size : Int) (w : σ)
    (h : specFileSteps os config st.world file = (.ok size, w)) :
    (backupFile os config st file).2 = false
    ∧ (backupFile os config st file).1.world = w
    ∧ errorsOf (backupFile os config st file).1.trace = errorsOf st.trace
    ∧ sizeReads (backupFile os config st file).1.trace = sizeReads st.trace ++ [(file, size)] := by
  unfold specFileSteps at h
  unfold backupFile
  simp only []
  cases hrel : os.Rel config.SourcePath file with
  | error e1 => simp [hrel] at h
  | ok rel =>
    simp only [hrel] at h ⊢
    obtain ⟨d, w1, hd⟩ : ∃ d w1, createBackupDirectory os st.world
        (os.Dir (os.Join config.DestinationPath rel)) = (d, w1) := ⟨_, _, rfl⟩
    simp only [hd] at h ⊢
    cases d with
    | some e1 => simp at h
    | none =>
      simp only [] at h ⊢
      obtain ⟨c, w2, hc⟩ : ∃ c w2, copyFile os w1 file
          (os.Join config.DestinationPath rel) = (c, w2) := ⟨_, _, rfl⟩
      simp only [hc] at h ⊢
      cases c with
      | some e1 => simp at h
      | none =>
        simp only [] at h ⊢
        rw [h]
        simp [errorsOf, sizeReads, List.filterMap_append, Event.err, Event.sizeRead]
theorem copyLoop_spec {σ : Type} (os : FileOps σ) (config : BackupConfig)
    (files : List String) : ∀ st : RunState σ,
      errorsOf (copyLoop os config files st).trace
          = errorsOf st.trace ++ (specCopying os config files st.world).2.toList
      ∧ (sizeReads (copyLoop os config files st).trace).map Prod.snd
          = (sizeReads st.trace).map Prod.snd ++ (specCopying os config files st.world).1 := by
  induction files with
  | nil => intro st; simp [copyLoop, specCopying]
  | cons file rest ih =>
    intro st
    obtain ⟨r, w, hs⟩ : ∃ r w, specFileSteps os config st.world file = (r, w) := ⟨_, _, rfl⟩
    obtain ⟨st1, b, hb⟩ : ∃ st1 b, backupFile os config st file = (st1, b) := ⟨_, _, rfl⟩
    cases r with
    | error e =>
      obtain ⟨h1, _, h3, h4⟩ := backupFile_spec_error os config st file e w hs
      rw [hb] at h1 h3 h4
      simp only [] at h1 h3 h4
      subst h1
      simp [copyLoop, specCopying, hb, hs, h3, h4]
    | ok size =>
      obtain ⟨h1, h2, h3, h4⟩ := backupFile_spec_ok os config st file size w hs
      rw [hb] at h1 h2 h3 h4
      simp only [] at h1 h2 h3 h4
      subst h1
      obtain ⟨i1, i2⟩ := ih st1
      rw [h2] at i1 i2
      simp [copyLoop, specCopying, hb, hs, i1, i2, h3, h4]

theorem performFullBackup_spec {σ : Type} (os : FileOps σ) (config : BackupConfig) (s : σ)
    (duration : String) (finish : Time) :
    errorsOf (performFullBackup os config s duration finish).trace = specStepErrors os config s
    ∧ (sizeReads (performFullBackup os config s duration finish).trace).map Prod.snd
        = specSizes os config s := by
  have hp : (prepareDestination os config s).world
        = (createBackupDirectory os s config.DestinationPath).2
      ∧ errorsOf (prepareDestination os config s).trace
        = (createBackupDirectory os s config.DestinationPath).1.toList := by
    unfold prepareDestination
    simp only []
    split <;> rename_i heq <;> simp [heq, errorsOf, Event.err]
  obtain ⟨hl1, hl2, hl3⟩ := listSource_world_trace os config (prepareDestination os config s)
  rw [hp.1] at hl1 hl2 hl3
  have he : errorsOf (listSource os config (prepareDestination os config s)).2.trace
      = (createBackupDirectory os s config.DestinationPath).1.toList
        ++ (getDirectoryFiles os (createBackupDirectory os s config.DestinationPath).2
              config.SourcePath).1.2.toList := by
    rw [hl3, errorsOf_append, hp.2]
    cases (getDirectoryFiles os (createBackupDirectory os s config.DestinationPath).2
      config.SourcePath).1.2 <;> simp [errorsOf, Event.err]
  have hz := (listSource_initial os config s).2.2.1
  obtain ⟨c1, c2⟩ := copyLoop_spec os config
    (listSource os config (prepareDestination os config s)).1
    (listSource os config (prepareDestination os config s)).2
  have hT : (performFullBackup os config s duration finish).trace
      = (copyLoop os config (listSource os config (prepareDestination os config s)).1
          (listSource os config (prepareDestination os config s)).2).trace := rfl
  rw [hT, c1, c2, he, hz, hl1, hl2]
  exact ⟨rfl, by simp [specSizes, specFiles, specLoopWorld]⟩

/-- C8: every error returned by a step of `performFullBackup` is recorded in
the report.  With the errors of the steps collected as the specification
describes the run (`specStepErrors`: destination directory, enumeration,
then the steps of each file up to the first failure), `Success` is false
exactly when at least one step returned an error, `ErrorMessage` is the
message of the last step that returned an error, and it is empty exactly
when no step failed. -/
theorem performFullBackup_records_errors {σ : Type} (os : FileOps σ) (config : BackupConfig)
    (s : σ) (duration : String) (finish : Time) :
    ((performFullBackup os config s duration finish).report.Success = false
        ↔ specStepErrors os config s ≠ [])
    ∧ (performFullBackup os config s duration finish).report.ErrorMessage
        = lastMessage (specStepErrors os config s)
    ∧ ((performFullBackup os config s duration finish).report.ErrorMessage = ""
        ↔ specStepErrors os config s = []) := by
  obtain ⟨h1, h2⟩ := performFullBackup_recorded os config s duration finish
  rw [(performFullBackup_spec os config s duration finish).1] at h1 h2
  refine ⟨?_, h2, ?_⟩
  · rw [← not_iff_not]; simpa using h1
  · rw [h2]
    constructor
    · intro hm
      by_contra hne
      exact lastMessage_ne_empty _ hne hm
    · intro he; rw [he]; rfl

/-- C8 on a run with two failing steps: the destination cannot be created
below a socket, and neither can the subdirectory for the first file; the
report holds the message of the second error. -/
theorem performFullBackup_records_errors_witness :
    specStepErrors simOps blockedConfig blockedFS
      = [GoError.pathError "stat" "/dst/backup" Errno.ENOTDIR,
         GoError.pathError "stat" "/dst/backup/sub" Errno.ENOTDIR]
    ∧ (performFullBackup simOps blockedConfig blockedFS "0.00 seconds"
        sampleTime).report.Success = false
    ∧ (performFullBackup simOps blockedConfig blockedFS "0.00 seconds"
        sampleTime).report.ErrorMessage = "stat /dst/backup/sub: not a directory"
    ∧ lastMessage (specStepErrors simOps blockedConfig blockedFS)
        = "stat /dst/backup/sub: not a directory" :=
  ⟨by decide,
    (performFullBackup_records_errors simOps blockedConfig blockedFS "0.00 seconds"
      sampleTime).1.mpr (by decide),
    by decide, by decide⟩
/-- C1 (amended): when `performFullBackup` returns a report with
`Success == true`, `FilesBackedUp` is the number of paths
`getDirectoryFiles` returned for the source, `getFileSize` reported a size
for each of these files, and `TotalSize` is the sum of these sizes as an
`int64`: the sum itself when it lies in the range of `int64`, and the sum
reduced modulo `2^64` otherwise. -/
theorem performFullBackup_success {σ : Type} (os : FileOps σ) (config : BackupConfig) (s : σ)
    (duration : String) (finish : Time)
    (h : (performFullBackup os config s duration finish).report.Success = true) :
    (performFullBackup os config s duration finish).report.FilesBackedUp
      = ((specFiles os config s).length : Int)
    ∧ (specSizes os config s).length = (specFiles os config s).length
    ∧ (performFullBackup os config s duration finish).report.TotalSize
      = wrapInt64 (specSizes os config s).sum
    ∧ (-9223372036854775808 ≤ (specSizes os config s).sum
        ∧ (specSizes os config s).sum < 9223372036854775808 →
        (performFullBackup os config s duration finish).report.TotalSize
          = (specSizes os config s).sum) := by
  have hw : (prepareDestination os config s).world
      = (createBackupDirectory os s config.DestinationPath).2 := by
    unfold prepareDestination
    simp only []
    split <;> rename_i heq <;> simp [heq]
  obtain ⟨hl1, _, _⟩ := listSource_world_trace os config (prepareDestination os config s)
  rw [hw] at hl1
  have hfiles : (listSource os config (prepareDestination os config s)).1
      = specFiles os config s := hl1
  obtain ⟨h1, _, h3, _, _⟩ := listSource_initial os config s
  have hS : (copyLoop os config (listSource os config (prepareDestination os config s)).1
      (listSource os config (prepareDestination os config s)).2).report.Success = true := h
  obtain ⟨c1, c2⟩ := copyLoop_success os config _ _ hS
  have hF : (performFullBackup os config s duration finish).report.FilesBackedUp
      = (copyLoop os config (listSource os config (prepareDestination os config s)).1
          (listSource os config (prepareDestination os config s)).2).report.FilesBackedUp := rfl
  have hT : (performFullBackup os config s duration finish).trace
      = (copyLoop os config (listSource os config (prepareDestination os config s)).1
          (listSource os config (prepareDestination os config s)).2).trace := rfl
  have hsp := (performFullBackup_spec os config s duration finish).2
  have hcount := (performFullBackup_counted os config s duration finish).1.2.1
  rw [hsp] at hcount
  have hlen : (specSizes os config s).length = (specFiles os config s).length := by
    have e1 : ((sizeReads (performFullBackup os config s duration finish).trace).map
        Prod.fst).length = (specFiles os config s).length := by
      rw [hT, c2, h3, hfiles]; simp
    rw [← hsp, ← e1]; simp
  refine ⟨?_, hlen, hcount, ?_⟩
  · rw [hF, c1, h1, hfiles]; simp
  · intro hr
    rw [hcount]
    exact wrapInt64_of_range _ hr.1 hr.2

/-- C1 on the sample tree `a.txt` (5 bytes), `sub/b.txt` (10 bytes): two
files, 15 bytes. -/
theorem performFullBackup_success_witness :
    (performFullBackup simOps sampleConfig sampleFS "0.00 seconds" sampleTime).report.Success
      = true
    ∧ specFiles simOps sampleConfig sampleFS = ["/src/a.txt", "/src/sub/b.txt"]
    ∧ specSizes simOps sampleConfig sampleFS = [5, 10]
    ∧ (performFullBackup simOps sampleConfig sampleFS "0.00 seconds"
        sampleTime).report.FilesBackedUp = 2
    ∧ (performFullBackup simOps sampleConfig sampleFS "0.00 seconds" sampleTime).report.TotalSize
      = (specSizes simOps sampleConfig sampleFS).sum :=
  ⟨by decide, by decide, by decide, by decide,
    (performFullBackup_success simOps sampleConfig sampleFS "0.00 seconds" sampleTime
      (by decide)).2.2.2 (by decide)⟩

/-- C1 as stated fails: a second process extends `/src/a.txt` to `2^63 - 1`
bytes after it was copied; the run succeeds with two files whose sizes are
reported as `2^63 - 1` and `10`, and `TotalSize` is `-2^63 + 9`, not their
sum. -/
theorem performFullBackup_total_wraps :
    (performFullBackup (growingOps "/dst/a.txt" "/src/a.txt" 9223372036854775807)
        sampleConfig (sampleFS, []) "0.00 seconds" sampleTime).report.Success = true
    ∧ specFiles (growingOps "/dst/a.txt" "/src/a.txt" 9223372036854775807) sampleConfig
        (sampleFS, []) = ["/src/a.txt", "/src/sub/b.txt"]
    ∧ specSizes (growingOps "/dst/a.txt" "/src/a.txt" 9223372036854775807) sampleConfig
        (sampleFS, []) = [9223372036854775807, 10]
    ∧ (performFullBackup (growingOps "/dst/a.txt" "/src/a.txt" 9223372036854775807)
        sampleConfig (sampleFS, []) "0.00 seconds" sampleTime).report.TotalSize
        = -9223372036854775799
    ∧ ¬ (performFullBackup (growingOps "/dst/a.txt" "/src/a.txt" 9223372036854775807)
        sampleConfig (sampleFS, []) "0.00 seconds" sampleTime).report.TotalSize
        = (specSizes (growingOps "/dst/a.txt" "/src/a.txt" 9223372036854775807) sampleConfig
            (sampleFS, [])).sum := by
  refine ⟨by decide, by decide, by decide, by decide, by decide⟩

end GoBackup
